import Mathlib

/-!
Verification of the data-grid engine of this repository against its
specification.  The definitions below are shallow embeddings of the
TypeScript sources: `Interview/DataTable.tsx`, `DataTable/DataTable.tsx`,
and the unnamed modules holding the generic table (part 001), the built-in
sort functions (part 004) and the built-in filter functions (part 005).
JavaScript machine values are modelled by `JsValue`, and the stable
`Array.prototype.sort` (stability is mandated by the language since
ES2019) is modelled by an index-decorated insertion sort.
-/

/-- Model of the JavaScript primitive values the grid manipulates.
Numbers and dates are modelled as integers: every dataset in the
repository uses integer ages, ids and string fields, and no claim
depends on fractional or NaN behaviour. -/
inductive JsValue where
  | vStr (s : String)
  | vNum (n : Int)
  | vBool (b : Bool)
  | vDate (t : Int)
  | vNull
  | vUndefined
deriving DecidableEq

/-- JavaScript `String(v)` on a `JsValue`.  Integer formatting of
`String(n)` agrees with `toString` on `Int`.  Dates never reach a
stringification point in the verified claims, so their rendering is a
placeholder consistent with being some fixed text per timestamp. -/
def jsToString : JsValue → String
  | .vStr s => s
  | .vNum n => toString n
  | .vBool b => if b then "true" else "false"
  | .vDate t => "Date(" ++ toString t ++ ")"
  | .vNull => "null"
  | .vUndefined => "undefined"

/-- JavaScript truthiness of a `JsValue` (`v ? ... : ...`). -/
def truthy : JsValue → Bool
  | .vStr s => !(s == "")
  | .vNum n => !(n == 0)
  | .vBool b => b
  | .vDate _ => true
  | .vNull => false
  | .vUndefined => false

/-- `v == null` in JavaScript: `null` and `undefined` only. -/
def isNullish : JsValue → Bool
  | .vNull => true
  | .vUndefined => true
  | _ => false

/-- JavaScript `s.toLowerCase()` (ASCII case mapping suffices for the
data in this repository). -/
def jsToLower (s : String) : String :=
  ⟨s.data.map Char.toLower⟩

/-- Does the second list occur at the head of the first? -/
def leadMatch : List Char → List Char → Bool
  | _, [] => true
  | [], _ :: _ => false
  | a :: as, b :: bs => a == b && leadMatch as bs

/-- Substring occurrence on character lists (needle second). -/
def containsSub : List Char → List Char → Bool
  | [], n => n.isEmpty
  | h :: hs, n => leadMatch (h :: hs) n || containsSub hs n

/-- JavaScript `hay.includes(needle)`. -/
def jsIncludes (hay needle : String) : Bool :=
  containsSub hay.data needle.data

/-- `Number(b)` for a boolean. -/
def jsNumOfBool (b : Bool) : Int :=
  if b then 1 else 0

/-! ### Stable sort model of `Array.prototype.sort`

`Array.prototype.sort(cmp)` with a consistent comparator produces the
unique permutation that is weakly sorted by `cmp` and keeps elements
comparing equal in their original relative order.  That permutation is
obtained by decorating each element with its index, sorting by the
comparator with index tiebreak (a total order because indices are
distinct), and undecorating. -/

/-- Decorate a list with ascending indices starting at `n`. -/
def withIdx : List α → Nat → List (α × Nat)
  | [], _ => []
  | a :: as, n => (a, n) :: withIdx as (n + 1)

/-- Comparator-with-index-tiebreak order on decorated elements. -/
def jsLe (cmp : α → α → Int) (p q : α × Nat) : Prop :=
  cmp p.1 q.1 < 0 ∨ (cmp p.1 q.1 = 0 ∧ p.2 ≤ q.2)

instance (cmp : α → α → Int) : DecidableRel (jsLe cmp) := by
  intro p q
  unfold jsLe
  infer_instance

/-- The value computed by `Array.prototype.sort(cmp)` on a (consistent)
comparator: stable sort by `cmp`. -/
def jsStableSort (cmp : α → α → Int) (l : List α) : List α :=
  (List.insertionSort (jsLe cmp) (withIdx l 0)).map Prod.fst

/-! ### String comparison

JavaScript compares strings with `<`/`>` lexicographically by code unit.
We model it on the character lists backing `String` so that comparisons
evaluate inside the kernel. -/

/-- Lexicographic strict order on character lists (by code point). -/
def strLtL : List Char → List Char → Bool
  | [], [] => false
  | [], _ :: _ => true
  | _ :: _, [] => false
  | a :: as, b :: bs =>
    if a.toNat < b.toNat then true
    else if b.toNat < a.toNat then false
    else strLtL as bs

/-- JavaScript `s < t` on strings. -/
def strLt (s t : String) : Bool :=
  strLtL s.data t.data

/-! ### Sort directions and the direction-adjusted string comparator
used by `applySorts` in `Interview/DataTable.tsx` -/

/-- `SortDirection` of `Interview/DataTable.tsx`: `"asc" | "desc" | null`. -/
inductive SortDirection where
  | asc
  | desc
  | nullDir
deriving DecidableEq

/-- The comparator body of `applySorts`: equal strings compare `0`;
otherwise `"asc"` gives `valueA > valueB ? 1 : -1` and any other
direction gives `valueA > valueB ? -1 : 1`. -/
def dirAdj (dir : SortDirection) (va vb : String) : Int :=
  if va = vb then 0
  else if dir = .asc then (if strLt vb va then 1 else -1)
  else (if strLt vb va then -1 else 1)

/-! ## Embedding of `src/Interview/DataTable.tsx`

Getter records (`Record<string, (item) => unknown>`) are modelled as
`ColumnId → Option (T → JsValue)`: looking up a key absent from the
record yields `undefined`, and calling it raises a `TypeError`, which we
model with `Except`. -/

abbrev ColumnId := String

namespace Interview

/-- `interface Filter` of `Interview/DataTable.tsx`. -/
structure Filter where
  columnId : ColumnId
  value : String
deriving DecidableEq

/-- `interface Sort` of `Interview/DataTable.tsx` (named `SortEntry`
because `Sort` is reserved in Lean). -/
structure SortEntry where
  columnId : ColumnId
  direction : SortDirection
deriving DecidableEq

/-- `interface Pagination`; `pageIndex` is an `Int` because the code can
drive it below zero. -/
structure Pagination where
  pageIndex : Int
  pageSize : Nat
deriving DecidableEq

/-- One row against the `filters.every(...)` body of `applyFilters`:
`String(getter[filter.columnId](item)).toLowerCase().includes(filter.value.toLowerCase())`.
`every` short-circuits, and an absent getter raises a `TypeError`. -/
def matchesAll {T : Type} (item : T) (getter : ColumnId → Option (T → JsValue)) :
    List Filter → Except String Bool
  | [] => .ok true
  | f :: fs =>
    match getter f.columnId with
    | none => .error "TypeError: getter[filter.columnId] is not a function"
    | some g =>
      if jsIncludes (jsToLower (jsToString (g item))) (jsToLower f.value) then
        matchesAll item getter fs
      else
        .ok false

/-- `items.filter(...)` over `matchesAll`, rows visited left to right,
the first exception aborting the whole call. -/
def filterRows {T : Type} (filters : List Filter) (getter : ColumnId → Option (T → JsValue)) :
    List T → Except String (List T)
  | [] => .ok []
  | x :: xs =>
    match matchesAll x getter filters with
    | .error e => .error e
    | .ok b =>
      match filterRows filters getter xs with
      | .error e => .error e
      | .ok rest => .ok (if b then x :: rest else rest)

/-- `applyFilters` of `Interview/DataTable.tsx`. -/
def applyFilters {T : Type} (items : List T) (filters : List Filter)
    (getter : ColumnId → Option (T → JsValue)) : Except String (List T) :=
  if filters.isEmpty then .ok items else filterRows filters getter items

/-- `applySorts` of `Interview/DataTable.tsx`.  Only `sorts[0]` is read
by the comparator.  `Array.prototype.sort` never invokes the comparator
on arrays of length at most one, so the missing-getter `TypeError` can
only arise for two or more rows. -/
def applySorts {T : Type} (items : List T) (sorts : List SortEntry)
    (getter : ColumnId → Option (T → JsValue)) : Except String (List T) :=
  match sorts with
  | [] => .ok items
  | sort :: _ =>
    match items with
    | [] => .ok items
    | [_] => .ok items
    | _ :: _ :: _ =>
      match getter sort.columnId with
      | none => .error "TypeError: getter[sort.columnId] is not a function"
      | some g =>
        .ok (jsStableSort
          (fun a b => dirAdj sort.direction (jsToString (g a)) (jsToString (g b))) items)

/-- The `filters` update performed by `onColumnFilter`: drop previous
entries for the column, then prepend the new entry. -/
def onColumnFilterFilters (filters : List Filter) (f : Filter) : List Filter :=
  f :: filters.filter (fun item => item.columnId != f.columnId)

/-- The `sorts` update performed by `onColumnSort` (the component version
that copies `foundSort` before flipping it). -/
def onColumnSortSorts (sorts : List SortEntry) (c : ColumnId) : List SortEntry :=
  let foundSort := sorts.find? (fun item => item.columnId == c)
  let filteredOutSort := sorts.filter (fun item => item.columnId != c)
  match foundSort with
  | some f =>
    (if f.direction = .asc then { f with direction := .desc }
     else { f with direction := .asc }) :: filteredOutSort
  | none => ⟨c, .asc⟩ :: filteredOutSort

/-- Direction shown for a column: the direction of its entry when one is
present, nothing otherwise. -/
def dirFor (c : ColumnId) (sorts : List SortEntry) : Option SortDirection :=
  (sorts.find? (fun item => item.columnId == c)).map (fun s => s.direction)

/-- `Math.ceil(sortedItems.length / pagination.pageSize) - 1` as computed
by `onLastPage` and `canNextPage` (for positive `pageSize`). -/
def lastPageIndex (totalLen pageSize : Nat) : Int :=
  ((totalLen + pageSize - 1) / pageSize : Nat) - 1

/-- `onLastPage`: stores `lastPageIndex` verbatim, with no clamping. -/
def onLastPage (pg : Pagination) (totalLen : Nat) : Pagination :=
  { pg with pageIndex := lastPageIndex totalLen pg.pageSize }

end Interview

/-! ## Embedding of `src/DataTable/DataTable.tsx` (and its duplicate in
unnamed part 008) -/

namespace DTable

/-- `interface Filter` of `DataTable/DataTable.tsx`. -/
structure Filter where
  columnId : ColumnId
  value : String
deriving DecidableEq

/-- The `SET_FILTER` branch of the reducer:
`state.filters.filter((f) => f.columnId !== filter.value)` followed by
appending the new filter.  Note the comparison is against the new
filter's value, not its columnId. -/
def setFilterFilters (filters : List Filter) (f : Filter) : List Filter :=
  (filters.filter (fun x => x.columnId != f.value)) ++ [f]

/-- `applyFilter` of `DataTable/DataTable.tsx`:
`getters[filter.columnId]?.(row)` yields `undefined` for an unknown
column, and `rowValue ? String(rowValue) : ""` stringifies every falsy
value to the empty string. -/
def applyFilter {T : Type} (rows : List T) (filters : List Filter)
    (getters : ColumnId → Option (T → JsValue)) : List T :=
  if filters.isEmpty then rows
  else
    rows.filter (fun row =>
      filters.all (fun f =>
        let rowValue : JsValue :=
          match getters f.columnId with
          | some g => g row
          | none => .vUndefined
        let rowValueStr : String := if truthy rowValue then jsToString rowValue else ""
        jsIncludes (jsToLower rowValueStr) (jsToLower f.value)))

end DTable

/-! ## Embedding of the generic table in unnamed part 001 -/

namespace Part001

/-- The part of `Column<T>` that sorting reads: `id` and `accessor`.
Accessor results are `JsValue`s (in our model every accessor result is a
sortable primitive, so `isPrimitiveForSort` holds and the
`String(va)` fallback branch is never taken). -/
structure Column (T : Type) where
  id : ColumnId
  accessor : T → JsValue

/-- `SortState`: `columnId: string | null`, `direction: "asc" | "desc" | null`.
Here the two live directions are the `asc`/`desc` constructors of
`SortDirection` wrapped in `Option`, `none` standing for `null`. -/
structure SortState where
  columnId : Option ColumnId
  direction : Option Bool
deriving DecidableEq

/-- Direction encoding for part 001: `true` is `"asc"`, `false` is
`"desc"`. -/
def dirMult (isAsc : Bool) : Int :=
  if isAsc then 1 else -1

/-- `comparePrimitive` of part 001: nullish values are normalized to
smallest, dates and booleans and numbers compare numerically, everything
else compares as lowercased strings. -/
def comparePrimitive (a b : JsValue) : Int :=
  if isNullish a && isNullish b then 0
  else if isNullish a then -1
  else if isNullish b then 1
  else
    match a, b with
    | .vDate x, .vDate y => x - y
    | .vBool x, .vBool y => jsNumOfBool x - jsNumOfBool y
    | .vNum x, .vNum y => x - y
    | _, _ =>
      let sa := jsToLower (jsToString a)
      let sb := jsToLower (jsToString b)
      if strLt sa sb then -1 else if strLt sb sa then 1 else 0

/-- Cycle tri-state sort on column header click (`toggleSort` of part
001, with `sortable = true`). -/
def toggleSort (prev : SortState) (columnId : ColumnId) : SortState :=
  if prev.columnId ≠ some columnId then ⟨some columnId, some true⟩
  else if prev.direction = some true then ⟨some columnId, some false⟩
  else if prev.direction = some false then ⟨none, none⟩
  else ⟨some columnId, some true⟩

/-- Sort state of one column inside a `SortState`. -/
def dirOf (c : ColumnId) (s : SortState) : Option Bool :=
  if s.columnId = some c then s.direction else none

/-- The `sorted` useMemo of part 001: the guard
`if (!sort.columnId || !sort.direction) return filtered;` is on JS
falsiness, so both a `null` column id and the empty-string column id
leave the rows unchanged, as does a `null` direction; an unknown column
id also returns `filtered` unchanged; otherwise the rows are decorated
with their index, sorted by `cmp !== 0 ? dir * cmp : a.idx - b.idx`,
and undecorated — which is exactly `jsStableSort` of the
direction-multiplied comparator. -/
def sortedStep {T : Type} (columns : List (Column T)) (sort : SortState)
    (filtered : List T) : List T :=
  match sort.columnId, sort.direction with
  | some cid, some isAsc =>
    if cid = "" then filtered
    else
      match columns.find? (fun c => c.id == cid) with
      | none => filtered
      | some col =>
        jsStableSort
          (fun a b => dirMult isAsc * comparePrimitive (col.accessor a) (col.accessor b))
          filtered
  | _, _ => filtered

/-- `goToPage` of part 001:
`min(max(0, p), totalPages - 1)` with `totalPages = max(1, ceil(total / pageSize))`. -/
def goToPage (total pageSize : Nat) (p : Int) : Int :=
  let totalPages : Int := max 1 (((total + pageSize - 1) / pageSize : Nat) : Int)
  min (max 0 p) (totalPages - 1)

end Part001

/-! ## Embedding of the built-in sort functions in unnamed part 004 -/

namespace Part004

/-- `interface Sort` of part 004 (named `SortEntry`; `Sort` is reserved). -/
structure SortEntry where
  columnId : ColumnId
  direction : SortDirection

/-- `parseInt(s, 10)` restricted to the chunks produced by
`split(/([0-9]+)/gm).filter(Boolean)`: such a chunk is entirely digits or
entirely non-digits, so the result is the digit value when the chunk
starts with a digit and `NaN` (here `none`) otherwise. -/
def parseIntJs (s : String) : Option Nat :=
  match s.data with
  | [] => none
  | c :: _ =>
    if c.isDigit then
      some ((s.data.takeWhile Char.isDigit).foldl (fun acc d => 10 * acc + (d.toNat - 48)) 0)
    else none

/-- Split into maximal runs of digits / non-digits:
`str.split(/([0-9]+)/gm).filter(Boolean)` keeps the captured digit runs
and drops the empty fragments, leaving exactly the maximal homogeneous
runs. -/
def chunkRuns : List Char → List (List Char)
  | [] => []
  | c :: cs =>
    match chunkRuns cs with
    | [] => [[c]]
    | g :: gs =>
      match g with
      | [] => [c] :: gs
      | d :: _ => if c.isDigit == d.isDigit then (c :: g) :: gs else [c] :: g :: gs

def splitNumRuns (s : String) : List String :=
  (chunkRuns s.data).map List.asString

/-- `compareAlphanumericArr`: walks both chunk lists, comparing text
chunks as strings (text sorts before numbers on a mixed pair), numeric
chunks as numbers, skipping a step when either shifted chunk is empty,
and falling back to the remaining-length difference. -/
def compareAlphanumericArr : List String → List String → Int
  | aa :: as, bb :: bs =>
    if aa ≠ "" ∧ bb ≠ "" then
      match parseIntJs aa, parseIntJs bb with
      | none, none =>
        if strLt bb aa then 1
        else if strLt aa bb then -1
        else compareAlphanumericArr as bs
      | none, some _ => -1
      | some _, none => 1
      | some x, some y =>
        if x > y then 1
        else if x < y then -1
        else compareAlphanumericArr as bs
    else compareAlphanumericArr as bs
  | as, bs => (as.length : Int) - (bs.length : Int)

/-- `compareAlphanumberic` (sic) of part 004: `null` direction compares
`0`; otherwise the split chunk lists are compared, swapped for the
descending direction. -/
def compareAlphanumberic (aStr bStr : String) (direction : SortDirection) : Int :=
  match direction with
  | .nullDir => 0
  | _ =>
    let a := splitNumRuns aStr
    let b := splitNumRuns bStr
    if direction = .asc then compareAlphanumericArr a b
    else compareAlphanumericArr b a

/-- The `alphanumeric` built-in sort function: lowercases both accessor
values and, for the descending direction, also swaps the two arguments
before calling `compareAlphanumberic`. -/
def alphanumeric {T : Type} (itemA itemB : T) (sort : SortEntry)
    (getters : ColumnId → Option (T → JsValue)) : Except String Int :=
  match getters sort.columnId with
  | none => .error "TypeError: getters[sort.columnId] is not a function"
  | some g =>
    let a := g itemA
    let b := g itemB
    .ok (if sort.direction = .asc then
      compareAlphanumberic (jsToLower (jsToString a)) (jsToLower (jsToString b))
        sort.direction
    else
      compareAlphanumberic (jsToLower (jsToString b)) (jsToLower (jsToString a))
        sort.direction)

end Part004

/-! ## Embedding of the built-in filter functions in unnamed part 005 -/

namespace Part005

/-- `interface Filter` of part 005 (its `value` is `unknown`). -/
structure Filter where
  columnId : ColumnId
  value : JsValue

/-- `equalsString`: lowercased stringified accessor value equals the
lowercased stringified filter value. -/
def equalsString {T : Type} (item : T) (filter : Filter)
    (getters : ColumnId → Option (T → JsValue)) : Except String Bool :=
  match getters filter.columnId with
  | none => .error "TypeError: getters[filter.columnId] is not a function"
  | some g =>
    .ok (jsToLower (jsToString (g item)) == jsToLower (jsToString filter.value))

/-- `equalsStringSensitive`: its body is the same as `equalsString`,
lowercasing both operands as well. -/
def equalsStringSensitive {T : Type} (item : T) (filter : Filter)
    (getters : ColumnId → Option (T → JsValue)) : Except String Bool :=
  match getters filter.columnId with
  | none => .error "TypeError: getters[filter.columnId] is not a function"
  | some g =>
    .ok (jsToLower (jsToString (g item)) == jsToLower (jsToString filter.value))

end Part005

/-! ## Specification-side reference definitions

The spec describes a stable multi-key sort walking the whole Sort
Specification, and a filter retaining a row iff the match text is a
case-insensitive substring of the stringified accessor value.  These are
written from the spec's words and compared with the code embeddings. -/

/-- Spec reference: walk the Sort Specification in priority order; the
first key whose accessor values differ decides the direction-adjusted
comparison; all keys tying compare `0`. -/
def specSortCmp {T : Type} (g : ColumnId → T → JsValue) :
    List Interview.SortEntry → T → T → Int
  | [], _, _ => 0
  | s :: rest, a, b =>
    let c := dirAdj s.direction (jsToString (g s.columnId a)) (jsToString (g s.columnId b))
    if c = 0 then specSortCmp g rest a b else c

/-- Spec reference: stable multi-key sort (the index tiebreak of
`jsStableSort` is the spec's stability guarantee). -/
def specMultiSort {T : Type} (g : ColumnId → T → JsValue)
    (sorts : List Interview.SortEntry) (items : List T) : List T :=
  jsStableSort (specSortCmp g sorts) items

/-- Spec reference: a row is retained iff for every active filter entry
the match text is a case-insensitive substring of the stringified
accessor value of the entry's column. -/
def specFilterRetain {T : Type} (g : ColumnId → T → JsValue)
    (filters : List Interview.Filter) (items : List T) : List T :=
  items.filter (fun item =>
    filters.all (fun f =>
      jsIncludes (jsToLower (jsToString (g f.columnId item))) (jsToLower f.value)))

/-! ## Reference-heap model for the mutation claims

`Array.prototype.sort` sorts in place and returns its receiver, and
`DataTableDemo.onSort` assigns `foundSort.direction` on the object found
inside the previous state.  To state this, arrays and sort-entry objects
live in a heap of numbered cells, and the pipeline passes cell ids. -/

/-- A heap of JavaScript arrays, one `List` per cell id. -/
def ArrHeap (T : Type) := Nat → List T

/-- Update one heap cell. -/
def hupd {T : Type} (h : ArrHeap T) (i : Nat) (v : List T) : ArrHeap T :=
  fun j => if j = i then v else h j

/-- `applyFilters` at the reference level (getters all present, as in the
demo): with no active filters the very same array reference is returned;
otherwise `items.filter` allocates a fresh array. -/
def applyFiltersRef {T : Type} (h : ArrHeap T) (r : Nat) (filters : List Interview.Filter)
    (g : ColumnId → T → JsValue) (fresh : Nat) : ArrHeap T × Nat × Nat :=
  if filters.isEmpty then (h, r, fresh)
  else (hupd h fresh (specFilterRetain g filters (h r)), fresh, fresh + 1)

/-- `applySorts` at the reference level: `items.sort(...)` writes the
sorted contents back into the cell it was given and returns the same
reference. -/
def applySortsRef {T : Type} (h : ArrHeap T) (r : Nat) (sorts : List Interview.SortEntry)
    (g : ColumnId → T → JsValue) : ArrHeap T × Nat :=
  match sorts with
  | [] => (h, r)
  | sort :: _ =>
    (hupd h r
      (jsStableSort
        (fun a b =>
          dirAdj sort.direction (jsToString (g sort.columnId a))
            (jsToString (g sort.columnId b)))
        (h r)), r)

/-- Filter-then-sort, as computed during render of the Interview table. -/
def pipelineRef {T : Type} (h : ArrHeap T) (r : Nat) (filters : List Interview.Filter)
    (sorts : List Interview.SortEntry) (g : ColumnId → T → JsValue)
    (fresh : Nat) : ArrHeap T × Nat :=
  let step := applyFiltersRef h r filters g fresh
  applySortsRef step.1 step.2.1 sorts g

/-- A heap of sort-entry objects, for `DataTableDemo.onSort`. -/
def SortHeap := Nat → Interview.SortEntry

/-- `DataTableDemo.onSort`, reference level: the previous state's list
holds references; when the column is found its object is mutated in
place (`foundSort.direction = ...`) and the same reference is moved to
the head of the next state's list. -/
def onSortDemoRef (h : SortHeap) (sorts : List Nat) (c : ColumnId) (fresh : Nat) :
    SortHeap × List Nat :=
  let filteredOutSort := sorts.filter (fun r => (h r).columnId != c)
  match sorts.find? (fun r => (h r).columnId == c) with
  | some r =>
    let f := h r
    let h2 : SortHeap := fun j =>
      if j = r then
        (if f.direction = .asc then { f with direction := .desc }
         else { f with direction := .asc })
      else h j
    (h2, r :: filteredOutSort)
  | none =>
    let h2 : SortHeap := fun j => if j = fresh then ⟨c, .asc⟩ else h j
    (h2, fresh :: filteredOutSort)

/-- The tri-state cycle of the spec, on one column's sort state (`true`
is ascending, `false` descending, `none` unsorted). -/
def triNext : Option Bool → Option Bool
  | none => some true
  | some true => some false
  | some false => none

/-- Getter for the C1 counterexample: column `c2` distinguishes the two
rows, every other column ties. -/
def cexGetter1 : ColumnId → Nat → JsValue := fun c n =>
  if c = "c2" then (if n = 0 then .vStr "b" else .vStr "a") else .vStr "k"

/-- The caller's dataset for the C8 evaluation, stored in heap cell 0. -/
def c8heap : ArrHeap JsValue := hupd (fun _ => []) 0 [.vNum 2, .vNum 1]

/-- A previous state whose single sort entry (`name`, ascending) lives
in every cell, for the `onSort` evaluation. -/
def c8sortHeap : SortHeap := fun _ => ⟨"name", .asc⟩

theorem withIdx_map_fst : ∀ (l : List α) (n : Nat), (withIdx l n).map Prod.fst = l := by
  intro l
  induction l with
  | nil => intro n; rfl
  | cons a as ih => intro n; simp [withIdx, ih]

theorem mem_withIdx : ∀ {l : List α} {n : Nat} {p : α × Nat},
    p ∈ withIdx l n → p.1 ∈ l ∧ n ≤ p.2 := by
  intro l
  induction l with
  | nil => intro n p h; simp [withIdx] at h
  | cons a as ih =>
    intro n p h
    simp only [withIdx, List.mem_cons] at h
    rcases h with h | h
    · subst h; simp
    · rcases ih h with ⟨h1, h2⟩
      exact ⟨List.mem_cons_of_mem _ h1, Nat.le_of_succ_le h2⟩

theorem withIdx_sorted {cmp : α → α → Int} :
    ∀ {l : List α} (n : Nat), l.Pairwise (fun a b => cmp a b ≤ 0) →
      List.Sorted (jsLe cmp) (withIdx l n) := by
  intro l
  induction l with
  | nil => intro n _; simp [withIdx, List.Sorted]
  | cons a as ih =>
    intro n h
    rcases List.pairwise_cons.mp h with ⟨hhead, htail⟩
    refine List.pairwise_cons.mpr ⟨?_, ih (n + 1) htail⟩
    intro q hq
    rcases mem_withIdx hq with ⟨hq1, hq2⟩
    rcases lt_or_eq_of_le (hhead q.1 hq1) with hlt | heq
    · exact Or.inl hlt
    · exact Or.inr ⟨heq, Nat.le_of_succ_le hq2⟩

/-- A list already weakly sorted by the comparator is returned unchanged
by the stable sort. -/
theorem jsStableSort_of_pairwise {cmp : α → α → Int} {l : List α}
    (h : l.Pairwise (fun a b => cmp a b ≤ 0)) : jsStableSort cmp l = l := by
  unfold jsStableSort
  rw [List.Sorted.insertionSort_eq (withIdx_sorted 0 h), withIdx_map_fst]

theorem strLtL_irrefl : ∀ l : List Char, strLtL l l = false := by
  intro l
  induction l with
  | nil => rfl
  | cons a as ih => simp [strLtL, ih]

theorem strLtL_asymm : ∀ {l m : List Char}, strLtL l m = true → strLtL m l = false := by
  intro l
  induction l with
  | nil =>
    intro m h
    cases m with
    | nil => simp [strLtL] at h
    | cons b bs => simp [strLtL]
  | cons a as ih =>
    intro m h
    cases m with
    | nil => simp [strLtL] at h
    | cons b bs =>
      simp only [strLtL] at h ⊢
      by_cases hab : a.toNat < b.toNat
      · have hba : ¬ b.toNat < a.toNat := by omega
        simp [hab, hba]
      · by_cases hba : b.toNat < a.toNat
        · simp [hab, hba] at h
        · simp only [hab, hba, if_neg, ite_false] at h ⊢
          exact ih h

theorem strLtL_trans : ∀ {l m k : List Char},
    strLtL l m = true → strLtL m k = true → strLtL l k = true := by
  intro l
  induction l with
  | nil =>
    intro m k h1 h2
    cases m with
    | nil => simp [strLtL] at h1
    | cons b bs =>
      cases k with
      | nil => simp [strLtL] at h2
      | cons c cs => simp [strLtL]
  | cons a as ih =>
    intro m k h1 h2
    cases m with
    | nil => simp [strLtL] at h1
    | cons b bs =>
      cases k with
      | nil => simp [strLtL] at h2
      | cons c cs =>
        simp only [strLtL] at h1 h2 ⊢
        by_cases hab : a.toNat < b.toNat
        · by_cases hbc : b.toNat < c.toNat
          · have hac : a.toNat < c.toNat := by omega
            simp [hac]
          · have hcb : ¬ c.toNat < b.toNat := by
              intro hcb
              simp [hbc, hcb] at h2
            have hac : a.toNat < c.toNat := by omega
            simp [hac]
        · have hba : ¬ b.toNat < a.toNat := by
            intro hba
            simp [hab, hba] at h1
          have heq : a.toNat = b.toNat := by omega
          by_cases hbc : b.toNat < c.toNat
          · have hac : a.toNat < c.toNat := by omega
            simp [hac]
          · have hcb : ¬ c.toNat < b.toNat := by
              intro hcb
              simp [hbc, hcb] at h2
            have hac : ¬ a.toNat < c.toNat := by omega
            have hca : ¬ c.toNat < a.toNat := by omega
            simp only [hab, hba, if_neg, ite_false] at h1
            simp only [hbc, hcb, if_neg, ite_false] at h2
            simp only [hac, hca, if_neg, ite_false]
            exact ih h1 h2

theorem strLtL_conn : ∀ {l m : List Char},
    strLtL l m = false → strLtL m l = false → l = m := by
  intro l
  induction l with
  | nil =>
    intro m h1 _
    cases m with
    | nil => rfl
    | cons b bs => simp [strLtL] at h1
  | cons a as ih =>
    intro m h1 h2
    cases m with
    | nil => simp [strLtL] at h2
    | cons b bs =>
      simp only [strLtL] at h1 h2
      by_cases hab : a.toNat < b.toNat
      · simp [hab] at h1
      · by_cases hba : b.toNat < a.toNat
        · simp [hab, hba] at h2
        · have htn : a.toNat = b.toNat := by omega
          have heq : a = b := Char.eq_of_val_eq (UInt32.ext htn)
          simp only [hab, hba, if_neg, ite_false] at h1 h2
          rw [heq, ih h1 h2]

theorem strLt_irrefl (s : String) : strLt s s = false :=
  strLtL_irrefl s.data

theorem strLt_asymm {s t : String} (h : strLt s t = true) : strLt t s = false :=
  strLtL_asymm h

theorem strLt_trans {s t u : String} (h1 : strLt s t = true) (h2 : strLt t u = true) :
    strLt s u = true :=
  strLtL_trans h1 h2

theorem strLt_conn {s t : String} (h1 : strLt s t = false) (h2 : strLt t s = false) :
    s = t := by
  cases s with
  | mk ds =>
    cases t with
    | mk dt =>
      have := strLtL_conn (l := ds) (m := dt) h1 h2
      simp [this]

theorem dirAdj_eq_zero_iff (dir : SortDirection) (va vb : String) :
    dirAdj dir va vb = 0 ↔ va = vb := by
  unfold dirAdj
  by_cases h : va = vb
  · simp [h]
  · simp only [h, if_neg, ite_false]
    by_cases hd : dir = .asc <;> by_cases hlt : strLt vb va <;> simp [hd, hlt, h]

theorem dirAdj_neg_iff_asc (va vb : String) :
    dirAdj .asc va vb < 0 ↔ (va ≠ vb ∧ strLt vb va = false) := by
  unfold dirAdj
  by_cases h : va = vb
  · simp [h]
  · by_cases hlt : strLt vb va <;> simp [h, hlt]

theorem dirAdj_neg_iff_nonasc {dir : SortDirection} (hd : dir ≠ .asc) (va vb : String) :
    dirAdj dir va vb < 0 ↔ (va ≠ vb ∧ strLt vb va = true) := by
  unfold dirAdj
  by_cases h : va = vb
  · simp [h]
  · by_cases hlt : strLt vb va <;> simp [h, hd, hlt]

/-- Totality of the decorated order for a key-based direction-adjusted
comparator. -/
theorem jsLe_key_total (dir : SortDirection) (key : α → String) :
    ∀ p q : α × Nat, jsLe (fun a b => dirAdj dir (key a) (key b)) p q ∨
      jsLe (fun a b => dirAdj dir (key a) (key b)) q p := by
  intro p q
  unfold jsLe
  by_cases heq : key p.1 = key q.1
  · rcases Nat.le_total p.2 q.2 with h | h
    · exact Or.inl (Or.inr ⟨(dirAdj_eq_zero_iff _ _ _).mpr heq, h⟩)
    · exact Or.inr (Or.inr ⟨(dirAdj_eq_zero_iff _ _ _).mpr heq.symm, h⟩)
  · have hne : key q.1 ≠ key p.1 := fun h => heq h.symm
    by_cases hd : dir = .asc
    · subst hd
      by_cases hlt : strLt (key q.1) (key p.1)
      · exact Or.inr (Or.inl ((dirAdj_neg_iff_asc _ _).mpr ⟨hne, strLt_asymm hlt⟩))
      · exact Or.inl (Or.inl ((dirAdj_neg_iff_asc _ _).mpr
          ⟨heq, Bool.eq_false_iff.mpr hlt⟩))
    · by_cases hlt : strLt (key q.1) (key p.1)
      · exact Or.inl (Or.inl ((dirAdj_neg_iff_nonasc hd _ _).mpr ⟨heq, hlt⟩))
      · have hlt2 : strLt (key p.1) (key q.1) = true := by
          by_contra hc
          exact heq (strLt_conn (Bool.eq_false_iff.mpr hc) (Bool.eq_false_iff.mpr hlt))
        exact Or.inr (Or.inl ((dirAdj_neg_iff_nonasc hd _ _).mpr ⟨hne, hlt2⟩))

/-- Transitivity of the decorated order for a key-based
direction-adjusted comparator. -/
theorem jsLe_key_trans (dir : SortDirection) (key : α → String) :
    ∀ p q r : α × Nat, jsLe (fun a b => dirAdj dir (key a) (key b)) p q →
      jsLe (fun a b => dirAdj dir (key a) (key b)) q r →
      jsLe (fun a b => dirAdj dir (key a) (key b)) p r := by
  intro p q r h1 h2
  unfold jsLe at h1 h2 ⊢
  by_cases hd : dir = .asc
  · subst hd
    rcases h1 with h1 | ⟨h1, h1i⟩ <;> rcases h2 with h2 | ⟨h2, h2i⟩
    · rcases (dirAdj_neg_iff_asc _ _).mp h1 with ⟨hne1, hnl1⟩
      rcases (dirAdj_neg_iff_asc _ _).mp h2 with ⟨hne2, hnl2⟩
      refine Or.inl ((dirAdj_neg_iff_asc _ _).mpr ⟨?_, ?_⟩)
      · intro hpr
        have h3 : strLt (key p.1) (key q.1) = true := by
          by_contra hc
          exact hne1 (strLt_conn (Bool.eq_false_iff.mpr hc) hnl1)
        have h4 : strLt (key q.1) (key r.1) = true := by
          by_contra hc
          exact hne2 (strLt_conn (Bool.eq_false_iff.mpr hc) hnl2)
        have := strLt_trans h3 h4
        rw [← hpr] at this
        simp [strLt_irrefl] at this
      · by_contra hc
        have hc' : strLt (key r.1) (key p.1) = true := Bool.not_eq_false _ |>.mp hc
        have h3 : strLt (key p.1) (key q.1) = true := by
          by_contra hcc
          exact hne1 (strLt_conn (Bool.eq_false_iff.mpr hcc) hnl1)
        have := strLt_trans hc' h3
        rw [this] at hnl2
        simp at hnl2
    · have heq : key q.1 = key r.1 := (dirAdj_eq_zero_iff _ _ _).mp h2
      rcases (dirAdj_neg_iff_asc _ _).mp h1 with ⟨hne1, hnl1⟩
      refine Or.inl ((dirAdj_neg_iff_asc _ _).mpr ⟨?_, ?_⟩)
      · rw [← heq]; exact hne1
      · rw [← heq]; exact hnl1
    · have heq : key p.1 = key q.1 := (dirAdj_eq_zero_iff _ _ _).mp h1
      rcases (dirAdj_neg_iff_asc _ _).mp h2 with ⟨hne2, hnl2⟩
      refine Or.inl ((dirAdj_neg_iff_asc _ _).mpr ⟨?_, ?_⟩)
      · rw [heq]; exact hne2
      · rw [heq]; exact hnl2
    · have heq1 : key p.1 = key q.1 := (dirAdj_eq_zero_iff _ _ _).mp h1
      have heq2 : key q.1 = key r.1 := (dirAdj_eq_zero_iff _ _ _).mp h2
      exact Or.inr ⟨(dirAdj_eq_zero_iff _ _ _).mpr (heq1.trans heq2),
        Nat.le_trans h1i h2i⟩
  · rcases h1 with h1 | ⟨h1, h1i⟩ <;> rcases h2 with h2 | ⟨h2, h2i⟩
    · rcases (dirAdj_neg_iff_nonasc hd _ _).mp h1 with ⟨hne1, hl1⟩
      rcases (dirAdj_neg_iff_nonasc hd _ _).mp h2 with ⟨hne2, hl2⟩
      refine Or.inl ((dirAdj_neg_iff_nonasc hd _ _).mpr ⟨?_, strLt_trans hl2 hl1⟩)
      intro hpr
      have := strLt_trans hl2 hl1
      rw [hpr] at this
      simp [strLt_irrefl] at this
    · have heq : key q.1 = key r.1 := (dirAdj_eq_zero_iff _ _ _).mp h2
      rcases (dirAdj_neg_iff_nonasc hd _ _).mp h1 with ⟨hne1, hl1⟩
      refine Or.inl ((dirAdj_neg_iff_nonasc hd _ _).mpr ⟨?_, ?_⟩)
      · rw [← heq]; exact hne1
      · rw [← heq]; exact hl1
    · have heq : key p.1 = key q.1 := (dirAdj_eq_zero_iff _ _ _).mp h1
      rcases (dirAdj_neg_iff_nonasc hd _ _).mp h2 with ⟨hne2, hl2⟩
      refine Or.inl ((dirAdj_neg_iff_nonasc hd _ _).mpr ⟨?_, ?_⟩)
      · rw [heq]; exact hne2
      · rw [heq]; exact hl2
    · have heq1 : key p.1 = key q.1 := (dirAdj_eq_zero_iff _ _ _).mp h1
      have heq2 : key q.1 = key r.1 := (dirAdj_eq_zero_iff _ _ _).mp h2
      exact Or.inr ⟨(dirAdj_eq_zero_iff _ _ _).mpr (heq1.trans heq2),
        Nat.le_trans h1i h2i⟩

/-- The output of `jsStableSort` with a key-based direction-adjusted
comparator is weakly sorted by that comparator. -/
theorem jsStableSort_key_pairwise (dir : SortDirection) (key : α → String) (l : List α) :
    (jsStableSort (fun a b => dirAdj dir (key a) (key b)) l).Pairwise
      (fun a b => dirAdj dir (key a) (key b) ≤ 0) := by
  haveI : IsTotal (α × Nat) (jsLe (fun a b => dirAdj dir (key a) (key b))) :=
    ⟨jsLe_key_total dir key⟩
  haveI : IsTrans (α × Nat) (jsLe (fun a b => dirAdj dir (key a) (key b))) :=
    ⟨jsLe_key_trans dir key⟩
  have hs := List.sorted_insertionSort (jsLe (fun a b => dirAdj dir (key a) (key b)))
    (withIdx l 0)
  unfold jsStableSort
  rw [List.pairwise_map]
  refine hs.imp ?_
  intro p q h
  rcases h with h | ⟨h, _⟩
  · exact le_of_lt h
  · exact le_of_eq h

/-- Sorting an already `jsStableSort`-sorted list again with the same
key-based comparator changes nothing: the in-code sort is idempotent. -/
theorem jsStableSort_key_idem (dir : SortDirection) (key : α → String) (l : List α) :
    jsStableSort (fun a b => dirAdj dir (key a) (key b))
      (jsStableSort (fun a b => dirAdj dir (key a) (key b)) l) =
      jsStableSort (fun a b => dirAdj dir (key a) (key b)) l :=
  jsStableSort_of_pairwise (jsStableSort_key_pairwise dir key l)

theorem jsStableSort_length (cmp : α → α → Int) (l : List α) :
    (jsStableSort cmp l).length = l.length := by
  unfold jsStableSort
  rw [List.length_map, (List.perm_insertionSort _ _).length_eq]
  induction l with
  | nil => rfl
  | cons a as ih =>
    show (withIdx (a :: as) 0).length = as.length + 1
    have hgen : ∀ (m : List α) (n : Nat), (withIdx m n).length = m.length := by
      intro m
      induction m with
      | nil => intro n; rfl
      | cons b bs ihb => intro n; simp [withIdx, ihb]
    simp [withIdx, hgen]

/-- `jsStableSort` on a two-element list keeps the order exactly when the
comparator does not put the second element strictly first. -/
theorem jsStableSort_pair (cmp : α → α → Int) (x y : α) :
    jsStableSort cmp [x, y] = if cmp x y ≤ 0 then [x, y] else [y, x] := by
  unfold jsStableSort withIdx withIdx withIdx
  simp only [List.insertionSort, List.orderedInsert]
  by_cases h : jsLe cmp (x, 0) (y, 1)
  · rw [if_pos h]
    have hle : cmp x y ≤ 0 := by
      rcases h with h | ⟨h, _⟩
      · exact le_of_lt h
      · exact le_of_eq h
    simp [hle]
  · rw [if_neg h]
    have hgt : ¬ cmp x y ≤ 0 := by
      intro hle
      rcases lt_or_eq_of_le hle with hlt | heq
      · exact h (Or.inl hlt)
      · exact h (Or.inr ⟨heq, by omega⟩)
    simp [hgt]

/-! ## Helper lemmas for the claim theorems -/

theorem pairwise_of_total {R : α → α → Prop} (h : ∀ a b, R a b) :
    ∀ l : List α, l.Pairwise R := by
  intro l
  induction l with
  | nil => exact List.Pairwise.nil
  | cons a as ih => exact List.pairwise_cons.mpr ⟨fun b _ => h a b, ih⟩

theorem comparePrimitive_null_left {a b : JsValue} (h1 : isNullish a = true)
    (h2 : isNullish b = false) : Part001.comparePrimitive a b = -1 := by
  simp [Part001.comparePrimitive, h1, h2]

theorem comparePrimitive_null_right {a b : JsValue} (h1 : isNullish a = false)
    (h2 : isNullish b = true) : Part001.comparePrimitive a b = 1 := by
  simp [Part001.comparePrimitive, h1, h2]

/-! ## C9 — the alphanumeric comparator ignores its direction -/

/-- C9: for the built-in `alphanumeric` sort function, the descending
invocation returns exactly the ascending one: the argument swap in
`alphanumeric` and the operand swap inside `compareAlphanumberic` cancel
each other (also when the getter is absent, where both raise the same
`TypeError`). -/
theorem alphanumeric_desc_eq_asc {T : Type} (itemA itemB : T) (c : ColumnId)
    (getters : ColumnId → Option (T → JsValue)) :
    Part004.alphanumeric itemA itemB ⟨c, .desc⟩ getters =
      Part004.alphanumeric itemA itemB ⟨c, .asc⟩ getters := by
  unfold Part004.alphanumeric
  cases getters c <;> rfl

/-! ## C10 — `equalsStringSensitive` coincides with `equalsString` -/

/-- C10: `equalsStringSensitive` and `equalsString` are extensionally
equal — both lowercase both operands before comparing, so the
"Sensitive" variant is not case-sensitive. -/
theorem equalsStringSensitive_eq_equalsString {T : Type} (item : T)
    (f : Part005.Filter) (getters : ColumnId → Option (T → JsValue)) :
    Part005.equalsStringSensitive item f getters =
      Part005.equalsString item f getters := rfl

/-! ## C4 — placement of nullish sort keys -/

/-- C4 counterexample: in descending direction the row with the `null`
key is placed after the defined row, not before it, because the
direction multiplier is applied after the null normalization. -/
theorem sortedStep_desc_null_last_cex :
    Part001.sortedStep [⟨"k", id⟩] ⟨some "k", some false⟩ [JsValue.vNull, JsValue.vStr "a"] =
        [JsValue.vStr "a", JsValue.vNull] ∧
      [JsValue.vStr "a", JsValue.vNull] ≠ [JsValue.vNull, JsValue.vStr "a"] := by
  constructor
  · decide
  · decide

/-- C4 as amended: for any pair of rows with one nullish and one defined
sort key, and any active sort column (a non-empty column id — the
source's falsy guard makes an empty-string id inactive), ascending
order places the nullish row first and descending order places it
last, in both input orders. -/
theorem sortedStep_null_placement {T : Type} (cid : ColumnId) (acc : T → JsValue)
    (ra rb : T) (hcid : cid ≠ "") (h1 : isNullish (acc ra) = true)
    (h2 : isNullish (acc rb) = false) :
    Part001.sortedStep [⟨cid, acc⟩] ⟨some cid, some true⟩ [ra, rb] = [ra, rb] ∧
      Part001.sortedStep [⟨cid, acc⟩] ⟨some cid, some true⟩ [rb, ra] = [ra, rb] ∧
      Part001.sortedStep [⟨cid, acc⟩] ⟨some cid, some false⟩ [ra, rb] = [rb, ra] ∧
      Part001.sortedStep [⟨cid, acc⟩] ⟨some cid, some false⟩ [rb, ra] = [rb, ra] := by
  have hfind : ([(⟨cid, acc⟩ : Part001.Column T)].find? (fun c => c.id == cid)) =
      some ⟨cid, acc⟩ := by
    apply List.find?_cons_of_pos
    simp
  have hab : Part001.comparePrimitive (acc ra) (acc rb) = -1 :=
    comparePrimitive_null_left h1 h2
  have hba : Part001.comparePrimitive (acc rb) (acc ra) = 1 :=
    comparePrimitive_null_right h2 h1
  refine ⟨?_, ?_, ?_, ?_⟩ <;>
    simp only [Part001.sortedStep, if_neg hcid, hfind, jsStableSort_pair,
      Part001.dirMult, hab, hba, if_true, if_false] <;> norm_num

/-- C4 witness: the amended placement theorem at `null` versus `"x"`. -/
theorem sortedStep_null_placement_witness :
    ("k" : ColumnId) ≠ "" ∧
      isNullish JsValue.vNull = true ∧ isNullish (JsValue.vStr "x") = false ∧
      (Part001.sortedStep [⟨"k", id⟩] ⟨some "k", some true⟩
          [JsValue.vNull, JsValue.vStr "x"] = [JsValue.vNull, JsValue.vStr "x"] ∧
        Part001.sortedStep [⟨"k", id⟩] ⟨some "k", some true⟩
          [JsValue.vStr "x", JsValue.vNull] = [JsValue.vNull, JsValue.vStr "x"] ∧
        Part001.sortedStep [⟨"k", id⟩] ⟨some "k", some false⟩
          [JsValue.vNull, JsValue.vStr "x"] = [JsValue.vStr "x", JsValue.vNull] ∧
        Part001.sortedStep [⟨"k", id⟩] ⟨some "k", some false⟩
          [JsValue.vStr "x", JsValue.vNull] = [JsValue.vStr "x", JsValue.vNull]) :=
  ⟨by decide, by decide, by decide,
    sortedStep_null_placement "k" id JsValue.vNull (JsValue.vStr "x")
      (by decide) (by decide) (by decide)⟩

/-! ## C5 — the tri-state sort cycle -/

/-- C5 counterexample: in the Interview table, three toggles on a column
starting from the empty sort specification leave the column ascending,
not unsorted — `onColumnSort` never cycles back to the unsorted state. -/
theorem onColumnSort_not_tristate_cex :
    Interview.dirFor "name"
        (Interview.onColumnSortSorts
          (Interview.onColumnSortSorts
            (Interview.onColumnSortSorts [] "name") "name") "name") =
        some SortDirection.asc ∧
      Interview.dirFor "name" ([] : List Interview.SortEntry) = none ∧
      some SortDirection.asc ≠ (none : Option SortDirection) := by
  refine ⟨by decide, by decide, by decide⟩

/-- C5 as amended: `toggleSort` of the part 001 table realizes exactly
the tri-state cycle on the toggled column (so three toggles restore that
column's sort state), while the Interview `onColumnSort` maps the
column's state to descending after ascending and to ascending in every
other case — it never returns the column to unsorted. -/
theorem toggleSort_tristate :
    (∀ (s : Part001.SortState) (c : ColumnId),
        Part001.dirOf c (Part001.toggleSort s c) = triNext (Part001.dirOf c s)) ∧
      (∀ (s : Part001.SortState) (c : ColumnId),
        Part001.dirOf c
            (Part001.toggleSort (Part001.toggleSort (Part001.toggleSort s c) c) c) =
          Part001.dirOf c s) ∧
      (∀ (sorts : List Interview.SortEntry) (c : ColumnId),
        Interview.dirFor c (Interview.onColumnSortSorts sorts c) =
          some (if Interview.dirFor c sorts = some .asc then .desc else .asc)) := by
  have key : ∀ (s : Part001.SortState) (c : ColumnId),
      Part001.dirOf c (Part001.toggleSort s c) = triNext (Part001.dirOf c s) := by
    intro s c
    by_cases h1 : s.columnId = some c
    · cases hd : s.direction with
      | none =>
        simp [Part001.toggleSort, Part001.dirOf, h1, hd, triNext]
      | some b =>
        cases b <;> simp [Part001.toggleSort, Part001.dirOf, h1, hd, triNext]
    · simp [Part001.toggleSort, Part001.dirOf, h1, triNext]
  refine ⟨key, ?_, ?_⟩
  · intro s c
    rw [key, key, key]
    have h3 : ∀ o : Option Bool, triNext (triNext (triNext o)) = o := by
      intro o
      cases o with
      | none => rfl
      | some b => cases b <;> rfl
    exact h3 _
  · intro sorts c
    unfold Interview.onColumnSortSorts Interview.dirFor
    cases hf : sorts.find? (fun item => item.columnId == c) with
    | none =>
      simp only [hf]
      rw [List.find?_cons_of_pos _ (by simp)]
      simp [hf]
    | some f =>
      have hfc : f.columnId = c := by
        have := List.find?_some hf
        simpa using this
      simp only [hf]
      cases hd : f.direction with
      | asc =>
        rw [List.find?_cons_of_pos _ (by simp [hd, hfc])]
        simp [hd, hfc]
      | desc =>
        rw [List.find?_cons_of_pos _ (by simp [hd, hfc])]
        simp [hd, hfc]
      | nullDir =>
        rw [List.find?_cons_of_pos _ (by simp [hd, hfc])]
        simp [hd, hfc]

/-! ## C6 — pagination clamping -/

/-- C6 counterexample: with an empty filtered row set the Interview
table's `onLastPage` stores `Math.ceil(0 / pageSize) - 1 = -1` as the
page index — a negative index escapes to the view layer. -/
theorem onLastPage_negative_cex :
    (Interview.onLastPage ⟨0, 10⟩ 0).pageIndex = -1 ∧
      ¬ (0 : Int) ≤ (Interview.onLastPage ⟨0, 10⟩ 0).pageIndex := by
  refine ⟨by decide, by decide⟩

/-- C6 as amended: `goToPage` of the part 001 table clamps the requested
page into `[0, max(0, ceil(total / pageSize) - 1)]` — never negative,
also for an empty row set — whereas the Interview handlers store the
unclamped index (see the counterexample). -/
theorem goToPage_clamped (total pageSize : Nat) (p : Int) (h : 0 < pageSize) :
    0 ≤ Part001.goToPage total pageSize p ∧
      Part001.goToPage total pageSize p ≤
        max 0 ((((total + pageSize - 1) / pageSize : Nat) : Int) - 1) := by
  have hq : Part001.goToPage total pageSize p =
      min (max 0 p) (max 1 (((total + pageSize - 1) / pageSize : Nat) : Int) - 1) := rfl
  rw [hq]
  omega

/-- C6 witness: the clamp theorem at 12 rows, page size 5, requested
page 7 (clamped to the last page, index 2). -/
theorem goToPage_clamped_witness :
    0 < 5 ∧
      (0 ≤ Part001.goToPage 12 5 7 ∧
        Part001.goToPage 12 5 7 ≤ max 0 ((((12 + 5 - 1) / 5 : Nat) : Int) - 1)) :=
  ⟨by decide, goToPage_clamped 12 5 7 (by decide)⟩

/-! ## C7 — shape of the Filter Specification -/

/-- C7 counterexample: the `SET_FILTER` reducer deduplicates against the
new entry's value instead of its column id, so two entries for column
`"name"` accumulate; and the Interview `onColumnFilter` keeps an entry
whose match text became empty instead of removing it. -/
theorem filterSpec_shape_cex :
    (DTable.setFilterFilters (DTable.setFilterFilters [] ⟨"name", "a"⟩)
          ⟨"name", "ab"⟩).countP (fun x => x.columnId == "name") = 2 ∧
      Interview.onColumnFilterFilters [⟨"name", "a"⟩] ⟨"name", ""⟩ =
        [⟨"name", ""⟩] ∧
      ([⟨"name", ""⟩] : List Interview.Filter) ≠ [] := by
  refine ⟨by decide, by decide, by decide⟩

/-- C7 as amended: the Interview `onColumnFilter` preserves the
at-most-one-entry-per-column invariant and always keeps the new entry at
the head of the specification, also when its match text is empty (the
`SET_FILTER` reducer of `DataTable.tsx` preserves neither, per the
counterexample). -/
theorem onColumnFilter_invariant (filters : List Interview.Filter)
    (f : Interview.Filter)
    (h : filters.Pairwise (fun a b => a.columnId ≠ b.columnId)) :
    (Interview.onColumnFilterFilters filters f).Pairwise
        (fun a b => a.columnId ≠ b.columnId) ∧
      (Interview.onColumnFilterFilters filters f).head? = some f := by
  constructor
  · unfold Interview.onColumnFilterFilters
    refine List.pairwise_cons.mpr ⟨?_, ?_⟩
    · intro b hb
      rcases List.mem_filter.mp hb with ⟨_, hbf⟩
      have : b.columnId ≠ f.columnId := by simpa using hbf
      exact fun hfb => this hfb.symm
    · exact List.Pairwise.sublist (List.filter_sublist _) h
  · rfl

/-- C7 witness: the invariant theorem on a one-entry specification and a
new entry for a different column. -/
theorem onColumnFilter_invariant_witness :
    ([⟨"age", "3"⟩] : List Interview.Filter).Pairwise
        (fun a b => a.columnId ≠ b.columnId) ∧
      ((Interview.onColumnFilterFilters [⟨"age", "3"⟩] ⟨"name", "a"⟩).Pairwise
          (fun a b => a.columnId ≠ b.columnId) ∧
        (Interview.onColumnFilterFilters [⟨"age", "3"⟩] ⟨"name", "a"⟩).head? =
          some ⟨"name", "a"⟩) :=
  ⟨List.pairwise_singleton _ _,
    onColumnFilter_invariant [⟨"age", "3"⟩] ⟨"name", "a"⟩
      (List.pairwise_singleton _ _)⟩

/-! ## C2 — filter semantics -/

theorem matchesAll_total {T : Type} (item : T) (g : ColumnId → T → JsValue) :
    ∀ filters : List Interview.Filter,
      Interview.matchesAll item (fun c => some (g c)) filters =
        .ok (filters.all (fun f =>
          jsIncludes (jsToLower (jsToString (g f.columnId item))) (jsToLower f.value))) := by
  intro filters
  induction filters with
  | nil => rfl
  | cons f fs ih =>
    simp only [Interview.matchesAll, List.all_cons]
    by_cases hm : jsIncludes (jsToLower (jsToString (g f.columnId item)))
        (jsToLower f.value) = true
    · rw [if_pos hm, ih, hm]
      simp
    · rw [if_neg hm]
      have : jsIncludes (jsToLower (jsToString (g f.columnId item)))
          (jsToLower f.value) = false := Bool.eq_false_iff.mpr hm
      rw [this]
      simp

theorem filterRows_total {T : Type} (filters : List Interview.Filter)
    (g : ColumnId → T → JsValue) :
    ∀ items : List T,
      Interview.filterRows filters (fun c => some (g c)) items =
        .ok (items.filter (fun item => filters.all (fun f =>
          jsIncludes (jsToLower (jsToString (g f.columnId item))) (jsToLower f.value)))) := by
  intro items
  induction items with
  | nil => rfl
  | cons x xs ih =>
    show (match Interview.matchesAll x (fun c => some (g c)) filters with
      | Except.error e => Except.error e
      | Except.ok b =>
        match Interview.filterRows filters (fun c => some (g c)) xs with
        | Except.error e => Except.error e
        | Except.ok rest => Except.ok (if b then x :: rest else rest)) = _
    rw [matchesAll_total, ih]
    simp only [List.filter_cons]

/-- C2 counterexample: `applyFilter` of `DataTable.tsx` stringifies the
falsy accessor value `0` to `""`, so the filter `(age, "0")` drops a row
whose stringified accessor value is `"0"` — the row the claim's
substring criterion retains. -/
theorem applyFilter_falsy_cex :
    DTable.applyFilter [()] [⟨"age", "0"⟩]
        (fun c => some (fun _ => if c = "age" then JsValue.vNum 0 else .vUndefined)) =
        ([] : List Unit) ∧
      specFilterRetain (fun c _ => if c = "age" then JsValue.vNum 0 else .vUndefined)
        [⟨"age", "0"⟩] [()] = [()] ∧
      ([] : List Unit) ≠ [()] := by
  refine ⟨by decide, by decide, by decide⟩

/-- C2 as amended: `applyFilters` of the Interview table retains a row
iff every active entry's match text is a case-insensitive substring of
the stringified accessor value (identity on no filters), and the
concrete name scenario retains exactly Alice and Carlos; `applyFilter`
of `DataTable.tsx` implements the same criterion except that a falsy
accessor value is stringified to the empty string. -/
theorem applyFilters_substring :
    (∀ (T : Type) (items : List T) (filters : List Interview.Filter)
        (g : ColumnId → T → JsValue),
      Interview.applyFilters items filters (fun c => some (g c)) =
        .ok (specFilterRetain g filters items)) ∧
      (∀ (T : Type) (rows : List T) (filters : List DTable.Filter)
          (g : ColumnId → T → JsValue),
        DTable.applyFilter rows filters (fun c => some (g c)) =
          rows.filter (fun row => filters.all (fun f =>
            jsIncludes
              (jsToLower (if truthy (g f.columnId row) then jsToString (g f.columnId row)
                else ""))
              (jsToLower f.value)))) ∧
      Interview.applyFilters ["Alice", "Bob", "Carlos"] [⟨"name", "a"⟩]
          (fun c => some (fun s => if c = "name" then JsValue.vStr s else .vUndefined)) =
        .ok ["Alice", "Carlos"] := by
  refine ⟨?_, ?_, by rfl⟩
  · intro T items filters g
    unfold Interview.applyFilters specFilterRetain
    by_cases he : filters.isEmpty
    · have : filters = [] := List.isEmpty_iff.mp he
      subst this
      simp [List.filter_true]
    · rw [if_neg he, filterRows_total]
  · intro T rows filters g
    unfold DTable.applyFilter
    by_cases he : filters.isEmpty
    · have : filters = [] := List.isEmpty_iff.mp he
      subst this
      simp [List.filter_true]
    · rw [if_neg he]

/-! ## C3 — unknown column ids -/

/-- C3 counterexample: a filter entry with an unknown column id makes
`applyFilters` of the Interview table raise a `TypeError` instead of
ignoring the entry — the result is an error, not the unchanged row
array. -/
theorem applyFilters_unknown_cex :
    Interview.applyFilters [()] [⟨"nope", "a"⟩]
        (fun c => if c = "name" then some (fun _ => JsValue.vStr "x") else none) =
        .error "TypeError: getter[filter.columnId] is not a function" ∧
      Interview.applyFilters [()] [⟨"nope", "a"⟩]
          (fun c => if c = "name" then some (fun _ => JsValue.vStr "x") else none) ≠
        .ok [()] := by
  constructor
  · rfl
  · intro hcontra
    have : (Except.error "TypeError: getter[filter.columnId] is not a function"
        : Except String (List Unit)) = .ok [()] := by
      rw [← hcontra]
      rfl
    exact Except.noConfusion this

/-- C3 as amended: an unknown column id in the active sort of the part
001 table is a no-op; but in the Interview pipeline an unknown column id
in a filter entry raises a `TypeError` on any non-empty row array, and
in `applyFilter` of `DataTable.tsx` an unknown column id behaves as a
predicate that matches only the empty match text, dropping every row
otherwise — neither of the latter is a no-op. -/
theorem unknownColumnId_behaviour :
    (∀ (T : Type) (columns : List (Part001.Column T)) (cid : ColumnId) (isAsc : Bool)
        (filtered : List T), (∀ col ∈ columns, col.id ≠ cid) →
      Part001.sortedStep columns ⟨some cid, some isAsc⟩ filtered = filtered) ∧
      (∀ (T : Type) (x : T) (items : List T) (f : Interview.Filter)
          (getter : ColumnId → Option (T → JsValue)), getter f.columnId = none →
        Interview.applyFilters (x :: items) [f] getter =
          .error "TypeError: getter[filter.columnId] is not a function") ∧
      (∀ (T : Type) (rows : List T) (f : DTable.Filter)
          (getters : ColumnId → Option (T → JsValue)), getters f.columnId = none →
        DTable.applyFilter rows [f] getters =
          (if f.value = "" then rows else [])) := by
  refine ⟨?_, ?_, ?_⟩
  · intro T columns cid isAsc filtered h
    have hfind : columns.find? (fun c => c.id == cid) = none := by
      rw [List.find?_eq_none]
      intro col hcol
      simpa using h col hcol
    by_cases hc : cid = ""
    · simp [Part001.sortedStep, hc]
    · simp [Part001.sortedStep, hc, hfind]
  · intro T x items f getter h
    have hne : ¬ ([f].isEmpty = true) := by simp
    unfold Interview.applyFilters
    rw [if_neg hne]
    unfold Interview.filterRows Interview.matchesAll
    rw [h]
  · intro T rows f getters h
    have hne : ¬ (([f] : List DTable.Filter).isEmpty = true) := by simp
    unfold DTable.applyFilter
    rw [if_neg hne]
    have hiff : (f.value = "") ↔ (f.value.data.isEmpty = true) := by
      constructor
      · intro hv
        rw [hv]
        rfl
      · intro hv
        cases hfv : f.value with
        | mk d =>
          rw [hfv] at hv
          simp at hv
          subst hv
          rfl
    have hfil : List.filter (fun row =>
        [f].all (fun fe =>
          let rowValue : JsValue :=
            match getters fe.columnId with
            | some g => g row
            | none => .vUndefined
          let rowValueStr : String := if truthy rowValue then jsToString rowValue else ""
          jsIncludes (jsToLower rowValueStr) (jsToLower fe.value))) rows =
        List.filter (fun _ => f.value.data.isEmpty) rows := by
      apply List.filter_congr
      intro x _
      simp only [List.all_cons, List.all_nil, Bool.and_true, h]
      show jsIncludes (jsToLower "") (jsToLower f.value) = f.value.data.isEmpty
      unfold jsIncludes jsToLower containsSub
      simp only [List.isEmpty_iff, List.map_eq_nil_iff]
      cases f.value.data with
      | nil => simp
      | cons c cs => simp
    rw [hfil]
    by_cases hv : f.value = ""
    · rw [if_pos hv, hiff.mp hv, List.filter_true]
    · have hv2 : f.value.data.isEmpty = false := by
        rcases Bool.eq_false_or_eq_true f.value.data.isEmpty with h2 | h2
        · exact absurd (hiff.mpr h2) hv
        · exact h2
      rw [if_neg hv, hv2, List.filter_false]

/-- C3 witness: the behaviour theorem at concrete single-column,
single-row instances. -/
theorem unknownColumnId_behaviour_witness :
    Part001.sortedStep [⟨"a", fun _ => JsValue.vNull⟩] ⟨some "zz", some true⟩ [()] =
        [()] ∧
      Interview.applyFilters [()] [⟨"nope", "a"⟩]
          (fun _ => (none : Option (Unit → JsValue))) =
        .error "TypeError: getter[filter.columnId] is not a function" ∧
      DTable.applyFilter [()] [⟨"nope", "a"⟩]
          (fun _ => (none : Option (Unit → JsValue))) =
        (if ("a" : String) = "" then [()] else ([] : List Unit)) :=
  ⟨unknownColumnId_behaviour.1 Unit [⟨"a", fun _ => JsValue.vNull⟩] "zz" true [()]
      (by
        intro col hcol
        rw [List.mem_singleton] at hcol
        subst hcol
        decide),
    unknownColumnId_behaviour.2.1 Unit () [] ⟨"nope", "a"⟩ (fun _ => none) rfl,
    unknownColumnId_behaviour.2.2 Unit [()] ⟨"nope", "a"⟩ (fun _ => none) rfl⟩

/-! ## C1 — single-key versus multi-key sorting -/

/-- C1 counterexample: with the two-key specification
`[(c1, asc), (c2, asc)]` whose first key ties on both rows,
`applySorts` leaves the rows in place while the spec's multi-key walk
orders them by the second key — the code reads only `sorts[0]`. -/
theorem applySorts_multikey_cex :
    Interview.applySorts [0, 1] [⟨"c1", .asc⟩, ⟨"c2", .asc⟩]
        (fun c => some (cexGetter1 c)) = .ok [0, 1] ∧
      specMultiSort cexGetter1 [⟨"c1", .asc⟩, ⟨"c2", .asc⟩] [0, 1] = [1, 0] ∧
      ([0, 1] : List Nat) ≠ [1, 0] :=
  ⟨rfl, rfl, by decide⟩

/-- C1 as amended: `applySorts` is a stable single-key sort — it equals
the spec's stable multi-key walk applied to the specification truncated
to its first entry (the index tiebreak of the walk being the stability
guarantee), and sorting twice by the same specification yields the same
array. -/
theorem applySorts_single_key (T : Type) (items : List T)
    (sorts : List Interview.SortEntry) (g : ColumnId → T → JsValue) :
    Interview.applySorts items sorts (fun c => some (g c)) =
        .ok (specMultiSort g (sorts.take 1) items) ∧
      (Interview.applySorts items sorts (fun c => some (g c))).bind
          (fun out => Interview.applySorts out sorts (fun c => some (g c))) =
        Interview.applySorts items sorts (fun c => some (g c)) := by
  cases sorts with
  | nil =>
    constructor
    · show Except.ok items = Except.ok (specMultiSort g [] items)
      unfold specMultiSort
      rw [jsStableSort_of_pairwise (pairwise_of_total (fun a b => by
        show specSortCmp g [] a b ≤ 0
        simp [specSortCmp]) items)]
    · rfl
  | cons s rest =>
    have hcmp : specSortCmp g ((s :: rest).take 1) =
        fun a b => dirAdj s.direction (jsToString (g s.columnId a))
          (jsToString (g s.columnId b)) := by
      funext a b
      show (if dirAdj s.direction (jsToString (g s.columnId a))
            (jsToString (g s.columnId b)) = 0 then
          specSortCmp g [] a b
        else dirAdj s.direction (jsToString (g s.columnId a))
          (jsToString (g s.columnId b))) = _
      by_cases hc : dirAdj s.direction (jsToString (g s.columnId a))
          (jsToString (g s.columnId b)) = 0
      · rw [if_pos hc]
        exact hc.symm ▸ rfl
      · rw [if_neg hc]
    cases items with
    | nil =>
      constructor
      · show Except.ok [] = Except.ok (specMultiSort g ((s :: rest).take 1) [])
        unfold specMultiSort jsStableSort withIdx
        rfl
      · rfl
    | cons x xs =>
      cases xs with
      | nil =>
        constructor
        · show Except.ok [x] = Except.ok (specMultiSort g ((s :: rest).take 1) [x])
          unfold specMultiSort jsStableSort withIdx withIdx
          rfl
        · rfl
      | cons y ys =>
        have happ : Interview.applySorts (x :: y :: ys) (s :: rest)
            (fun c => some (g c)) =
            .ok (jsStableSort (fun a b => dirAdj s.direction
              (jsToString (g s.columnId a)) (jsToString (g s.columnId b)))
              (x :: y :: ys)) := rfl
        constructor
        · rw [happ]
          unfold specMultiSort
          rw [hcmp]
        · rw [happ]
          simp only [Except.bind]
          obtain ⟨a, b, t2, hout⟩ : ∃ a b t2,
              jsStableSort (fun a b => dirAdj s.direction
                (jsToString (g s.columnId a)) (jsToString (g s.columnId b)))
                (x :: y :: ys) = a :: b :: t2 := by
            cases hc : jsStableSort (fun a b => dirAdj s.direction
                (jsToString (g s.columnId a)) (jsToString (g s.columnId b)))
                (x :: y :: ys) with
            | nil =>
              have hl := jsStableSort_length (fun a b => dirAdj s.direction
                (jsToString (g s.columnId a)) (jsToString (g s.columnId b)))
                (x :: y :: ys)
              rw [hc] at hl
              simp at hl
            | cons a t =>
              cases t with
              | nil =>
                have hl := jsStableSort_length (fun a b => dirAdj s.direction
                  (jsToString (g s.columnId a)) (jsToString (g s.columnId b)))
                  (x :: y :: ys)
                rw [hc] at hl
                simp at hl
              | cons b t2 => exact ⟨a, b, t2, rfl⟩
          rw [hout]
          have happ2 : Interview.applySorts (a :: b :: t2) (s :: rest)
              (fun c => some (g c)) =
              .ok (jsStableSort (fun a b => dirAdj s.direction
                (jsToString (g s.columnId a)) (jsToString (g s.columnId b)))
                (a :: b :: t2)) := rfl
          rw [happ2, ← hout]
          exact congrArg Except.ok
            (jsStableSort_key_idem s.direction
              (fun a => jsToString (g s.columnId a)) (x :: y :: ys))

/-! ## C8 — in-place mutation of previous-state data -/

/-- C8 evaluated at the failing input: running the pipeline with no
active filters and one sort entry overwrites the caller's original
array cell with the sorted contents (`applyFilters` returns the same
reference and `Array.prototype.sort` mutates it in place), and
`DataTableDemo.onSort` flips `direction` on the very entry object still
referenced by the previous state's list. -/
theorem pipeline_mutates_previous_state :
    ((pipelineRef c8heap 0 [] [⟨"v", .asc⟩] (fun _ v => v) 1).1) 0 =
        [.vNum 1, .vNum 2] ∧
      c8heap 0 = [.vNum 2, .vNum 1] ∧
      ([JsValue.vNum 1, .vNum 2] ≠ [JsValue.vNum 2, .vNum 1]) ∧
      (onSortDemoRef c8sortHeap [0] "name" 1).1 0 = ⟨"name", .desc⟩ ∧
      c8sortHeap 0 = ⟨"name", .asc⟩ ∧
      ((⟨"name", .desc⟩ : Interview.SortEntry) ≠ ⟨"name", .asc⟩) ∧
      (onSortDemoRef c8sortHeap [0] "name" 1).2 = [0] := by
  refine ⟨by decide, by decide, by decide, by decide, by decide, by decide, by decide⟩
